import Mathlib

/-!
Shallow embedding of the poster-creator application (three variants of the
`PosterCreator` component).  Pixel and millimetre arithmetic is modelled
exactly over `ℚ`; grid dimensions are `ℤ` because the UI can store negative
parsed integers.  The tiling loop, the three page-layout computations, the
PDF page-assembly loop and the filename construction are translated from the
source.
-/

namespace Poster

/-- Grid configuration `{ horizontal, vertical }`; the UI stores parsed
integers, which can be negative. -/
structure GridConfig where
  horizontal : ℤ
  vertical : ℤ
deriving DecidableEq

/-- A pixel rectangle in source-image space (real-valued corners). -/
structure Rect where
  x : ℚ
  y : ℚ
  w : ℚ
  h : ℚ
deriving DecidableEq

/-- `pieceWidth = imageData.width / totalCols` (real-valued division). -/
def pieceWidth (W : ℚ) (totalCols : ℤ) : ℚ := W / (totalCols : ℚ)

/-- `pieceHeight = imageData.height / totalRows` (real-valued division). -/
def pieceHeight (H : ℚ) (totalRows : ℤ) : ℚ := H / (totalRows : ℚ)

/-- `canvas.width = pieceWidth`: the canvas dimension attribute truncates the
real value to an integer.  It is assigned once, before the tiling loop. -/
def canvasWidth (W : ℚ) (totalCols : ℤ) : ℤ := ⌊pieceWidth W totalCols⌋

/-- `canvas.height = pieceHeight`, assigned once before the tiling loop. -/
def canvasHeight (H : ℚ) (totalRows : ℤ) : ℤ := ⌊pieceHeight H totalRows⌋

/-- One tile produced by the cropping loop: grid coordinates, the exact
source rectangle passed to `drawImage`, and the raster dimensions of the
canvas it was rendered on. -/
structure Tile where
  col : ℕ
  row : ℕ
  rect : Rect
  rasterW : ℤ
  rasterH : ℤ
deriving DecidableEq

/-- The tile built for loop indices `(col, row)`: source rectangle
`(col*pieceWidth, row*pieceHeight, pieceWidth, pieceHeight)`, rendered on the
canvas that was sized before the loop. -/
def mkTile (W H : ℚ) (cols rows : ℤ) (c r : ℕ) : Tile :=
  { col := c
    row := r
    rect :=
      { x := (c : ℚ) * pieceWidth W cols
        y := (r : ℚ) * pieceHeight H rows
        w := pieceWidth W cols
        h := pieceHeight H rows }
    rasterW := canvasWidth W cols
    rasterH := canvasHeight H rows }

/-- The double loop of `generatePreview`: `for row in [0,totalRows)` outer,
`for col in [0,totalCols)` inner (row-major).  A non-positive bound gives an
empty iteration range, exactly as the source loop. -/
def tiles (W H : ℚ) (cols rows : ℤ) : List Tile :=
  (List.range rows.toNat).flatMap fun r =>
    (List.range cols.toNat).map fun c => mkTile W H cols rows c r

/-- Decoded image data (pixel dimensions, as in `ImageData`). -/
structure ImageData where
  width : ℚ
  height : ℚ
deriving DecidableEq

/-- Outcome of `generatePreview`: either the early silent `return` (image or
canvas absent) or the success path (`setPreviewData` + success toast). -/
inductive PreviewOutcome where
  | noOp : PreviewOutcome
  | success : List Tile → PreviewOutcome
deriving DecidableEq

/-- `generatePreview`: returns silently when no image is loaded; otherwise
unconditionally runs the tiling loop and reports success.  There is no grid
validation in the source. -/
def generatePreview (img : Option ImageData) (g : GridConfig) : PreviewOutcome :=
  match img with
  | none => .noOp
  | some d => .success (tiles d.width d.height g.horizontal g.vertical)

/-- Models `parseInt(e.target.value) || 1` in the grid inputs: a failed parse
(`NaN`, here `none`) and `0` are falsy and replaced by `1`; every other
integer, including negatives, is truthy and kept. -/
def parseGridInput (parsed : Option ℤ) : ℤ :=
  match parsed with
  | none => 1
  | some n => if n = 0 then 1 else n

/-- Point membership in a tile rectangle `[x, x+w) × [y, y+h)`. -/
def inRect (p q : ℚ) (r : Rect) : Prop :=
  r.x ≤ p ∧ p < r.x + r.w ∧ r.y ≤ q ∧ q < r.y + r.h

/-- `const col = i % totalCols` in `generatePDF`. -/
def pdfCol (totalCols : ℤ) (i : ℕ) : ℤ := (i : ℤ) % totalCols

/-- `const row = Math.floor(i / totalCols)` in `generatePDF`. -/
def pdfRow (totalCols : ℤ) (i : ℕ) : ℤ := (i : ℤ) / totalCols

theorem range_flatMap_map_length {α : Type} (m : ℕ) (f : ℕ → ℕ → α) :
    ∀ n : ℕ, ((List.range n).flatMap fun r => (List.range m).map (f r)).length = n * m := by
  intro n
  induction n with
  | zero => simp
  | succ n ih =>
    rw [List.range_succ, List.flatMap_append, List.flatMap_singleton]
    simp [ih, Nat.succ_mul]

theorem tiles_length (W H : ℚ) (cols rows : ℤ) :
    (tiles W H cols rows).length = rows.toNat * cols.toNat :=
  range_flatMap_map_length cols.toNat (fun r c => mkTile W H cols rows c r) rows.toNat

theorem range_flatMap_map_getElem {α : Type} (m : ℕ) (f : ℕ → ℕ → α) :
    ∀ (n : ℕ) (i : ℕ), i < n * m →
      ((List.range n).flatMap fun r => (List.range m).map (f r))[i]? =
        some (f (i / m) (i % m)) := by
  intro n
  induction n with
  | zero => intro i hi; omega
  | succ n ih =>
    intro i hi
    rw [Nat.add_mul, one_mul] at hi
    have hlen : ((List.range n).flatMap fun r => (List.range m).map (f r)).length = n * m :=
      range_flatMap_map_length m f n
    rw [List.range_succ, List.flatMap_append, List.flatMap_singleton,
      List.getElem?_append]
    by_cases hcase : i < n * m
    · rw [if_pos (by rw [hlen]; exact hcase)]
      exact ih i hcase
    · have hm : 0 < m := by omega
      have hj : i - n * m < m := by omega
      have hrepr : i = (i - n * m) + n * m := by omega
      rw [if_neg (by rw [hlen]; exact hcase), hlen]
      rw [List.getElem?_map, List.getElem?_range hj]
      have hdiv : i / m = n := by
        conv_lhs => rw [hrepr]
        rw [Nat.add_mul_div_right _ _ hm, Nat.div_eq_of_lt hj]
        omega
      have hmod : i % m = i - n * m := by
        conv_lhs => rw [hrepr]
        rw [Nat.add_mul_mod_self_right, Nat.mod_eq_of_lt hj]
      simp [hdiv, hmod]

theorem tiles_getElem (W H : ℚ) (cols rows : ℤ) (i : ℕ)
    (hi : i < rows.toNat * cols.toNat) :
    (tiles W H cols rows)[i]? =
      some (mkTile W H cols rows (i % cols.toNat) (i / cols.toNat)) := by
  exact range_flatMap_map_getElem cols.toNat (fun r c => mkTile W H cols rows c r) rows.toNat i hi

theorem tiles_mem (W H : ℚ) (cols rows : ℤ) (t : Tile) :
    t ∈ tiles W H cols rows ↔
      ∃ r < rows.toNat, ∃ c < cols.toNat, t = mkTile W H cols rows c r := by
  simp only [tiles, List.mem_flatMap, List.mem_map, List.mem_range]
  constructor
  · rintro ⟨r, hr, c, hc, rfl⟩
    exact ⟨r, hr, c, hc, rfl⟩
  · rintro ⟨r, hr, c, hc, rfl⟩
    exact ⟨r, hr, c, hc, rfl⟩

/-- One-dimensional cell lemma: a point of `[0, L)` lies in exactly one of
the `m` half-open cells of width `L / m`. -/
theorem unique_cell (x L : ℚ) (m : ℕ) (hm : 0 < m) (hL : 0 < L)
    (hx0 : 0 ≤ x) (hxL : x < L) :
    ∃! c : ℕ, c < m ∧ (c : ℚ) * (L / m) ≤ x ∧ x < ((c : ℚ) + 1) * (L / m) := by
  set u : ℚ := L / m with hu_def
  have hmq : (0 : ℚ) < (m : ℚ) := by exact_mod_cast hm
  have hu : 0 < u := div_pos hL hmq
  have hmu : (m : ℚ) * u = L := by
    rw [hu_def]
    field_simp
  have hxu0 : 0 ≤ x / u := div_nonneg hx0 (le_of_lt hu)
  refine ⟨⌊x / u⌋₊, ⟨?_, ?_, ?_⟩, ?_⟩
  · have hlt : x / u < (m : ℚ) := by
      rw [div_lt_iff hu, hmu]
      exact hxL
    exact (Nat.floor_lt hxu0).mpr hlt
  · rw [← le_div_iff hu]
    exact Nat.floor_le hxu0
  · rw [← div_lt_iff hu]
    exact Nat.lt_floor_add_one (x / u)
  · rintro c' ⟨_, hc1, hc2⟩
    have h1 : (c' : ℚ) ≤ x / u := (le_div_iff hu).mpr hc1
    have h2 : x / u < (c' : ℚ) + 1 := (div_lt_iff hu).mpr hc2
    have : ⌊x / u⌋₊ = c' := by
      rw [Nat.floor_eq_iff hxu0]
      exact ⟨h1, by exact_mod_cast h2⟩
    omega

/-- The `PaperFormat` keys of the `PAPER_FORMATS` catalog. -/
inductive PaperFormat where
  | a4 : PaperFormat
  | letter : PaperFormat
  | a3 : PaperFormat
  | tabloid : PaperFormat
deriving DecidableEq

/-- One entry of the `PAPER_FORMATS` catalog. -/
structure PaperSpec where
  width : ℚ
  height : ℚ
  name : String
deriving DecidableEq

/-- The fixed millimetre catalog `PAPER_FORMATS`. -/
def PAPER_FORMATS : PaperFormat → PaperSpec
  | .a4 => { width := 210, height := 297, name := "A4" }
  | .letter => { width := 216, height := 279, name := "Carta (Letter)" }
  | .a3 => { width := 297, height := 420, name := "A3" }
  | .tabloid => { width := 279, height := 432, name := "Tabloid" }

/-- The string key of a catalog entry (the `paperFormat` state value). -/
def formatKey : PaperFormat → String
  | .a4 => "a4"
  | .letter => "letter"
  | .a3 => "a3"
  | .tabloid => "tabloid"

/-- Page orientations. -/
inductive PageOrient where
  | portrait : PageOrient
  | landscape : PageOrient
deriving DecidableEq

/-- The string value of the `orientation` state. -/
def orientKey : PageOrient → String
  | .portrait => "portrait"
  | .landscape => "landscape"

/-- Effective page size reported by `pdf.internal.pageSize` for a jsPDF
document built with `format: [width, height]`: landscape swaps the catalog
width and height (all catalog entries have width < height). -/
def pageDims (f : PaperFormat) (o : PageOrient) : ℚ × ℚ :=
  match o with
  | .portrait => ((PAPER_FORMATS f).width, (PAPER_FORMATS f).height)
  | .landscape => ((PAPER_FORMATS f).height, (PAPER_FORMATS f).width)

/-- `aspectRatio = imageData.width / gridConfig.horizontal /
(imageData.height / gridConfig.vertical)`. -/
def tileAspectRatio (W H : ℚ) (g : GridConfig) : ℚ :=
  W / (g.horizontal : ℚ) / (H / (g.vertical : ℚ))

/-- Placement of a tile image on one PDF page. -/
structure LayoutResult where
  x : ℚ
  y : ℚ
  imgWidth : ℚ
  imgHeight : ℚ
deriving DecidableEq

/-- A jsPDF document, modelled as its pages in reverse order, each page being
the reverse-ordered list of images drawn on it.  `jsPDF` starts with one
empty page. -/
structure PdfDoc where
  rpages : List (List String)
deriving DecidableEq

/-- A freshly constructed jsPDF document: one empty page. -/
def newDoc : PdfDoc := ⟨[[]]⟩

/-- `pdf.addPage()`. -/
def addPage (d : PdfDoc) : PdfDoc := ⟨[] :: d.rpages⟩

/-- `pdf.addImage(img, ...)`: draws on the current (last) page. -/
def addImage (d : PdfDoc) (img : String) : PdfDoc :=
  match d.rpages with
  | [] => ⟨[[img]]⟩
  | pg :: rest => ⟨(img :: pg) :: rest⟩

/-- The pages of a document in creation order, each with its images in
drawing order. -/
def PdfDoc.pages (d : PdfDoc) : List (List String) :=
  (d.rpages.map List.reverse).reverse

/-- One iteration of the `generatePDF` loop body, restricted to its page
structure: `if (i > 0) pdf.addPage();` then `pdf.addImage(previewData[i])`.
This skeleton is identical in all three variants. -/
def drawStep (d : PdfDoc) (ip : ℕ × String) : PdfDoc :=
  addImage (if 0 < ip.1 then addPage d else d) ip.2

/-- The full `for (let i = 0; i < previewData.length; i++)` loop of
`generatePDF`, as far as pages and images are concerned. -/
def drawLoop (previews : List String) : PdfDoc :=
  previews.enum.foldl drawStep newDoc

namespace GuidesVariant

/-- The page-layout computation of the guides/header variant of
`generatePDF` (margin 15, header/instructions reservation of 25mm,
`y = margin + 15`). -/
def layout (pageWidth pageHeight aspectRatio : ℚ) : LayoutResult :=
  let margin : ℚ := 15
  let maxWidth := pageWidth - 2 * margin
  let maxHeight := pageHeight - 2 * margin
  let availableHeight := maxHeight - 25
  let wh :=
    if aspectRatio > maxWidth / availableHeight then
      (maxWidth, maxWidth / aspectRatio)
    else
      (availableHeight * aspectRatio, availableHeight)
  { x := (pageWidth - wh.1) / 2, y := margin + 15, imgWidth := wh.1, imgHeight := wh.2 }

/-- The saved filename
`poster-${horizontal}x${vertical}-${paperFormat}-${orientation}.pdf`. -/
def filename (g : GridConfig) (f : PaperFormat) (o : PageOrient) : String :=
  "poster-" ++ toString g.horizontal ++ "x" ++ toString g.vertical ++ "-" ++
    formatKey f ++ "-" ++ orientKey o ++ ".pdf"

/-- `generatePDF` of the guides/header variant: early return when no preview
exists, otherwise the document is assembled, laid out and saved.  There is no
other validation in the source. -/
def generatePDF (previews : List String) (W H : ℚ) (g : GridConfig)
    (f : PaperFormat) (o : PageOrient) : Option (PdfDoc × LayoutResult × String) :=
  if previews.isEmpty then none
  else
    let pd := pageDims f o
    some (drawLoop previews, layout pd.1 pd.2 (tileAspectRatio W H g), filename g f o)

end GuidesVariant

namespace CenteredVariant

/-- The page-layout computation of the centered variant of `generatePDF`
(margin 5, image maximized and centered both ways). -/
def layout (pageWidth pageHeight aspectRatio : ℚ) : LayoutResult :=
  let margin : ℚ := 5
  let maxWidth := pageWidth - 2 * margin
  let maxHeight := pageHeight - 2 * margin
  let wh :=
    if aspectRatio > maxWidth / maxHeight then
      (maxWidth, maxWidth / aspectRatio)
    else
      (maxHeight * aspectRatio, maxHeight)
  { x := (pageWidth - wh.1) / 2, y := (pageHeight - wh.2) / 2,
    imgWidth := wh.1, imgHeight := wh.2 }

/-- The saved filename of the centered variant (same pattern as the
guides/header variant). -/
def filename (g : GridConfig) (f : PaperFormat) (o : PageOrient) : String :=
  "poster-" ++ toString g.horizontal ++ "x" ++ toString g.vertical ++ "-" ++
    formatKey f ++ "-" ++ orientKey o ++ ".pdf"

end CenteredVariant

namespace BasicVariant

/-- `new jsPDF()` defaults to A4 portrait in millimetres. -/
def pageWidth : ℚ := 210

/-- Default page height of `new jsPDF()`. -/
def pageHeight : ℚ := 297

/-- The page-layout computation of the basic variant of `generatePDF`
(margin 10).  Note the asymmetry translated from the source: the branch test
compares against `maxWidth / maxHeight`, but the height-constrained branch
assigns `imgHeight = maxHeight - 20`. -/
def layout (aspectRatio : ℚ) : LayoutResult :=
  let margin : ℚ := 10
  let maxWidth := pageWidth - 2 * margin
  let maxHeight := pageHeight - 2 * margin
  let wh :=
    if aspectRatio > maxWidth / maxHeight then
      (maxWidth, maxWidth / aspectRatio)
    else
      ((maxHeight - 20) * aspectRatio, maxHeight - 20)
  { x := (pageWidth - wh.1) / 2, y := margin + 20, imgWidth := wh.1, imgHeight := wh.2 }

/-- The saved filename `poster-${horizontal}x${vertical}.pdf` (no paper
format and no orientation in this variant). -/
def filename (g : GridConfig) : String :=
  "poster-" ++ toString g.horizontal ++ "x" ++ toString g.vertical ++ ".pdf"

end BasicVariant

/-- Modelled from the spec: the deterministic filename pattern
`poster-<cols>x<rows>-<format>-<orientation>.pdf` that section 6 of the spec
prescribes for the downloaded document. -/
def specFilename (g : GridConfig) (fmt orient : String) : String :=
  "poster-" ++ toString g.horizontal ++ "x" ++ toString g.vertical ++ "-" ++
    fmt ++ "-" ++ orient ++ ".pdf"

theorem drawLoop_from (l : List String) :
    ∀ (k : ℕ), 0 < k → ∀ d : PdfDoc,
      ((l.enumFrom k).foldl drawStep d).rpages =
        (l.map fun p => [p]).reverse ++ d.rpages := by
  induction l with
  | nil => intro k _ d; simp [List.enumFrom]
  | cons p l ih =>
    intro k hk d
    rw [List.enumFrom_cons, List.foldl_cons]
    have hstep : drawStep d (k, p) = ⟨[p] :: d.rpages⟩ := by
      simp [drawStep, hk, addPage, addImage]
    rw [hstep, ih (k + 1) (by omega)]
    simp

theorem drawLoop_pages (previews : List String) (h : previews ≠ []) :
    (drawLoop previews).pages = previews.map fun p => [p] := by
  match previews, h with
  | p :: l, _ =>
    have h0 : drawStep newDoc (0, p) = ⟨[[p]]⟩ := by
      simp [drawStep, newDoc, addImage]
    rw [drawLoop, List.enum, List.enumFrom_cons, List.foldl_cons, h0]
    unfold PdfDoc.pages
    rw [show 0 + 1 = 1 from rfl, drawLoop_from l 1 (by omega)]
    simp

theorem flatMap_const_nil {α β : Type} (l : List α) :
    (l.flatMap fun _ => ([] : List β)) = [] := by
  induction l with
  | nil => rfl
  | cons a l ih => simp [ih]

theorem tiles_nonpos_left (W H : ℚ) (cols rows : ℤ) (h : cols ≤ 0) :
    tiles W H cols rows = [] := by
  have h0 : cols.toNat = 0 := by omega
  simp [tiles, h0, flatMap_const_nil]

theorem tiles_nonpos_right (W H : ℚ) (cols rows : ℤ) (h : rows ≤ 0) :
    tiles W H cols rows = [] := by
  have h0 : rows.toNat = 0 := by omega
  simp [tiles, h0]

/-- C6: in the centered variant, the horizontal placement satisfies
`imageX + imageWidth / 2 = pageWidth / 2` exactly, for every page size and
every aspect ratio. -/
theorem c6_centering_invariant (pw ph ar : ℚ) :
    (CenteredVariant.layout pw ph ar).x +
      (CenteredVariant.layout pw ph ar).imgWidth / 2 = pw / 2 := by
  simp only [CenteredVariant.layout]
  split <;> ring

/-- C8: for A4 portrait (210×297), margin 15, header reservation 25 and tile
aspect ratio 2, the header variant computes drawable `maxWidth = 180`,
`availableHeight = 297 - 30 - 25 = 242`, takes the width-constrained branch
because `2 > 180 / 242`, and yields `imageWidth = 180`, `imageHeight = 90`,
in exact rational arithmetic. -/
theorem c8_a4_header_scenario :
    pageDims .a4 .portrait = (210, 297) ∧
    (210 : ℚ) - 2 * 15 = 180 ∧
    ((297 : ℚ) - 2 * 15) - 25 = 242 ∧
    ((2 : ℚ) > 180 / 242) ∧
    (GuidesVariant.layout 210 297 2).imgWidth = 180 ∧
    (GuidesVariant.layout 210 297 2).imgHeight = 90 := by
  refine ⟨rfl, by norm_num, by norm_num, by norm_num, ?_, ?_⟩ <;>
    · simp only [GuidesVariant.layout]
      norm_num

/-- C9: at the grid-input boundary, `parseInt(value) || 1` coerces a failed
parse or a parsed 0 to 1 but stores a negative parsed integer unchanged, and
such a negative dimension reaches the partition, which then produces an
empty tile list under a success outcome rather than an error. -/
theorem c9_grid_input_coercion (n : ℤ) (hn : n < 0) (img : ImageData) (v : ℤ) :
    parseGridInput none = 1 ∧ parseGridInput (some 0) = 1 ∧
    parseGridInput (some n) = n ∧
    generatePreview (some img) ⟨parseGridInput (some n), v⟩ = .success [] := by
  have hne : n ≠ 0 := by omega
  have hp : parseGridInput (some n) = n := by simp [parseGridInput, hne]
  refine ⟨rfl, rfl, hp, ?_⟩
  simp only [generatePreview, hp]
  rw [tiles_nonpos_left _ _ _ _ (by omega)]

theorem c9_grid_input_coercion_witness :
    (-3 : ℤ) < 0 ∧
    (parseGridInput none = 1 ∧ parseGridInput (some 0) = 1 ∧
     parseGridInput (some (-3)) = -3 ∧
     generatePreview (some ⟨100, 80⟩) ⟨parseGridInput (some (-3)), 2⟩ = .success []) :=
  ⟨by decide, c9_grid_input_coercion (-3) (by decide) ⟨100, 80⟩ 2⟩

/-- C10: every tile raster produced by one invocation of `generatePreview`
has identical pixel dimensions, because the cropping canvas is sized once
before the loop and never resized per tile. -/
theorem c10_uniform_raster (W H : ℚ) (cols rows : ℤ) (t1 t2 : Tile)
    (h1 : t1 ∈ tiles W H cols rows) (h2 : t2 ∈ tiles W H cols rows) :
    t1.rasterW = t2.rasterW ∧ t1.rasterH = t2.rasterH := by
  rw [tiles_mem] at h1 h2
  obtain ⟨r1, -, c1, -, rfl⟩ := h1
  obtain ⟨r2, -, c2, -, rfl⟩ := h2
  exact ⟨rfl, rfl⟩

theorem c10_uniform_raster_witness :
    mkTile 1000 500 2 1 0 0 ∈ tiles 1000 500 2 1 ∧
    mkTile 1000 500 2 1 1 0 ∈ tiles 1000 500 2 1 ∧
    (mkTile 1000 500 2 1 0 0).rasterW = (mkTile 1000 500 2 1 1 0).rasterW ∧
    (mkTile 1000 500 2 1 0 0).rasterH = (mkTile 1000 500 2 1 1 0).rasterH := by
  have hm1 : mkTile 1000 500 2 1 0 0 ∈ tiles 1000 500 2 1 :=
    (tiles_mem 1000 500 2 1 _).mpr ⟨0, by decide, 0, by decide, rfl⟩
  have hm2 : mkTile 1000 500 2 1 1 0 ∈ tiles 1000 500 2 1 :=
    (tiles_mem 1000 500 2 1 _).mpr ⟨0, by decide, 1, by decide, rfl⟩
  obtain ⟨hw, hh⟩ := c10_uniform_raster 1000 500 2 1 _ _ hm1 hm2
  exact ⟨hm1, hm2, hw, hh⟩

/-- C4 counterexample: with an image loaded and grid `{horizontal := 0}`,
the partition is not rejected at the boundary: `generatePreview` executes
and reports success with an empty tile list; no InvalidInput condition is
signaled anywhere in the code. -/
theorem c4_counterexample :
    generatePreview (some ⟨100, 80⟩) ⟨0, 2⟩ = .success [] := by
  simp only [generatePreview]
  rw [tiles_nonpos_left _ _ _ _ (by decide)]

/-- C4 (amended): when the image is absent `generatePreview` returns early
with no tiles and no signal at all; a non-positive grid dimension is not
rejected: the tiling loop executes and reports success with an empty tile
list. -/
theorem c4_amended (img : ImageData) (g : GridConfig)
    (h : g.horizontal ≤ 0 ∨ g.vertical ≤ 0) :
    generatePreview none g = .noOp ∧
    generatePreview (some img) g = .success [] := by
  refine ⟨rfl, ?_⟩
  simp only [generatePreview]
  rcases h with h | h
  · rw [tiles_nonpos_left _ _ _ _ h]
  · rw [tiles_nonpos_right _ _ _ _ h]

theorem c4_amended_witness :
    ((0 : ℤ) ≤ 0 ∨ (2 : ℤ) ≤ 0) ∧
    (generatePreview none ⟨0, 2⟩ = .noOp ∧
     generatePreview (some ⟨50, 60⟩) ⟨0, 2⟩ = .success []) :=
  ⟨Or.inl (by decide), c4_amended ⟨50, 60⟩ ⟨0, 2⟩ (Or.inl (by decide))⟩

/-- C5 counterexample: previews can be stale, so `generatePDF` is reachable
with grid `{-1, 2}`; the tile aspect ratio is then `-2 ≤ 0`, yet the header
variant produces a document (with a LayoutResult) instead of rejecting the
input as InvalidInput. -/
theorem c5_counterexample :
    tileAspectRatio 100 100 ⟨-1, 2⟩ = -2 ∧
    (GuidesVariant.generatePDF ["p1"] 100 100 ⟨-1, 2⟩ .a4 .portrait).isSome = true := by
  constructor
  · simp only [tileAspectRatio]
    norm_num
  · rfl

/-- C5 (amended): `generatePDF` performs no validation of the aspect ratio
or the paper size: for any nonempty preview list it produces a document, the
catalog paper dimensions are always positive, and when the tile aspect ratio
is non-positive the produced layout simply has a non-positive image width
(no InvalidInput rejection, no default substituted). -/
theorem c5_amended (previews : List String) (hne : previews ≠ [])
    (W H : ℚ) (g : GridConfig) (f : PaperFormat) (o : PageOrient)
    (har : tileAspectRatio W H g ≤ 0) :
    (GuidesVariant.generatePDF previews W H g f o).isSome = true ∧
    0 < (pageDims f o).1 ∧ 0 < (pageDims f o).2 ∧
    (GuidesVariant.layout (pageDims f o).1 (pageDims f o).2
      (tileAspectRatio W H g)).imgWidth ≤ 0 := by
  have hpos1 : (0 : ℚ) < (pageDims f o).1 - 2 * 15 := by
    rcases f <;> rcases o <;> norm_num [pageDims, PAPER_FORMATS]
  have hpos2 : (0 : ℚ) < (pageDims f o).2 - 2 * 15 - 25 := by
    rcases f <;> rcases o <;> norm_num [pageDims, PAPER_FORMATS]
  refine ⟨?_, ?_, ?_, ?_⟩
  · simp [GuidesVariant.generatePDF, hne]
  · rcases f <;> rcases o <;> norm_num [pageDims, PAPER_FORMATS]
  · rcases f <;> rcases o <;> norm_num [pageDims, PAPER_FORMATS]
  · simp only [GuidesVariant.layout]
    split
    next hgt =>
      exfalso
      have hq : 0 < ((pageDims f o).1 - 2 * 15) / ((pageDims f o).2 - 2 * 15 - 25) :=
        div_pos hpos1 hpos2
      linarith
    next hle =>
      have := mul_nonpos_of_nonneg_of_nonpos (le_of_lt hpos2) har
      exact this

theorem c5_amended_witness :
    (["p1"] : List String) ≠ [] ∧ tileAspectRatio 100 100 ⟨-1, 2⟩ ≤ 0 ∧
    ((GuidesVariant.generatePDF ["p1"] 100 100 ⟨-1, 2⟩ .a4 .portrait).isSome = true ∧
     0 < (pageDims .a4 .portrait).1 ∧ 0 < (pageDims .a4 .portrait).2 ∧
     (GuidesVariant.layout (pageDims .a4 .portrait).1 (pageDims .a4 .portrait).2
       (tileAspectRatio 100 100 ⟨-1, 2⟩)).imgWidth ≤ 0) := by
  have h1 : (["p1"] : List String) ≠ [] := by simp
  have h2 : tileAspectRatio 100 100 ⟨-1, 2⟩ ≤ 0 := by
    simp only [tileAspectRatio]
    norm_num
  exact ⟨h1, h2, c5_amended ["p1"] h1 100 100 ⟨-1, 2⟩ .a4 .portrait h2⟩

/-- C1 counterexample: in the basic variant (A4 default, margin 10, so
`maxWidth = 190`, `maxHeight = 277`) with tile aspect ratio `1/2 > 0`, the
height-constrained branch yields `imageWidth = 257/2` and
`imageHeight = 257`, so neither `imageWidth = maxWidth` nor
`imageHeight = maxHeight` holds — the two-branch scale-to-fit rule of the
claim fails in this variant (the branch assigns `maxHeight - 20`, not
`maxHeight`). -/
theorem c1_counterexample :
    (0 : ℚ) < 1 / 2 ∧
    BasicVariant.pageWidth - 2 * 10 = 190 ∧
    BasicVariant.pageHeight - 2 * 10 = 277 ∧
    (BasicVariant.layout (1 / 2)).imgWidth = 257 / 2 ∧
    (BasicVariant.layout (1 / 2)).imgHeight = 257 ∧
    (257 : ℚ) / 2 ≠ 190 ∧ (257 : ℚ) ≠ 277 := by
  refine ⟨by norm_num, by norm_num [BasicVariant.pageWidth],
    by norm_num [BasicVariant.pageHeight], ?_, ?_, by norm_num, by norm_num⟩ <;>
    · simp only [BasicVariant.layout, BasicVariant.pageWidth, BasicVariant.pageHeight]
      norm_num

theorem guides_fit (pw ph ar : ℚ) (har : 0 < ar)
    (h1 : 0 < pw - 30) (h2 : 0 < ph - 55) :
    ((GuidesVariant.layout pw ph ar).imgWidth = pw - 30 ∨
     (GuidesVariant.layout pw ph ar).imgHeight = ph - 55) ∧
    (GuidesVariant.layout pw ph ar).imgWidth /
      (GuidesVariant.layout pw ph ar).imgHeight = ar ∧
    (ar ≠ (pw - 30) / (ph - 55) →
      ¬((GuidesVariant.layout pw ph ar).imgWidth = pw - 30 ∧
        (GuidesVariant.layout pw ph ar).imgHeight = ph - 55)) := by
  have hw : pw - 2 * 15 = pw - 30 := by ring
  have hh : ph - 2 * 15 - 25 = ph - 55 := by ring
  have hwne : pw - 30 ≠ 0 := ne_of_gt h1
  have hhne : ph - 55 ≠ 0 := ne_of_gt h2
  have harne : ar ≠ 0 := ne_of_gt har
  simp only [GuidesVariant.layout, hw, hh]
  split
  next hgt =>
    refine ⟨Or.inl rfl, ?_, ?_⟩
    · rw [div_div_eq_mul_div, mul_comm, mul_div_assoc, div_self hwne, mul_one]
    · rintro hne ⟨-, hH⟩
      apply hne
      rw [div_eq_iff harne] at hH
      rw [eq_div_iff hhne]
      linarith [hH]
  next hle =>
    refine ⟨Or.inr rfl, ?_, ?_⟩
    · rw [mul_comm, mul_div_assoc, div_self hhne, mul_one]
    · rintro hne ⟨hW, -⟩
      apply hne
      rw [eq_div_iff hhne]
      simp only at hW
      linear_combination hW

theorem centered_fit (pw ph ar : ℚ) (har : 0 < ar)
    (h1 : 0 < pw - 10) (h2 : 0 < ph - 10) :
    ((CenteredVariant.layout pw ph ar).imgWidth = pw - 10 ∨
     (CenteredVariant.layout pw ph ar).imgHeight = ph - 10) ∧
    (CenteredVariant.layout pw ph ar).imgWidth /
      (CenteredVariant.layout pw ph ar).imgHeight = ar ∧
    (ar ≠ (pw - 10) / (ph - 10) →
      ¬((CenteredVariant.layout pw ph ar).imgWidth = pw - 10 ∧
        (CenteredVariant.layout pw ph ar).imgHeight = ph - 10)) := by
  have hw : pw - 2 * 5 = pw - 10 := by ring
  have hh : ph - 2 * 5 = ph - 10 := by ring
  have hwne : pw - 10 ≠ 0 := ne_of_gt h1
  have hhne : ph - 10 ≠ 0 := ne_of_gt h2
  have harne : ar ≠ 0 := ne_of_gt har
  simp only [CenteredVariant.layout, hw, hh]
  split
  next hgt =>
    refine ⟨Or.inl rfl, ?_, ?_⟩
    · rw [div_div_eq_mul_div, mul_comm, mul_div_assoc, div_self hwne, mul_one]
    · rintro hne ⟨-, hH⟩
      apply hne
      rw [div_eq_iff harne] at hH
      rw [eq_div_iff hhne]
      linarith [hH]
  next hle =>
    refine ⟨Or.inr rfl, ?_, ?_⟩
    · rw [mul_comm, mul_div_assoc, div_self hhne, mul_one]
    · rintro hne ⟨hW, -⟩
      apply hne
      rw [eq_div_iff hhne]
      simp only at hW
      linear_combination hW

/-- C1 (amended): in the header/guides variant (drawable height
`availableHeight = pageHeight - 30 - 25`) and in the centered variant
(drawable height `pageHeight - 10`), the fit yields
`imageWidth = maxWidth` or `imageHeight = drawableHeight`, both exactly when
`aspectRatio = maxWidth / drawableHeight`, and the aspect ratio is preserved
exactly; the claim's "exactly one, in every variant" fails in the basic
variant, whose height-constrained branch assigns `maxHeight - 20` after
testing against `maxHeight`. -/
theorem c1_amended (pw ph ar : ℚ) (har : 0 < ar)
    (hg1 : 0 < pw - 30) (hg2 : 0 < ph - 55)
    (hc1 : 0 < pw - 10) (hc2 : 0 < ph - 10) :
    (((GuidesVariant.layout pw ph ar).imgWidth = pw - 30 ∨
      (GuidesVariant.layout pw ph ar).imgHeight = ph - 55) ∧
     (GuidesVariant.layout pw ph ar).imgWidth /
       (GuidesVariant.layout pw ph ar).imgHeight = ar ∧
     (ar ≠ (pw - 30) / (ph - 55) →
       ¬((GuidesVariant.layout pw ph ar).imgWidth = pw - 30 ∧
         (GuidesVariant.layout pw ph ar).imgHeight = ph - 55))) ∧
    (((CenteredVariant.layout pw ph ar).imgWidth = pw - 10 ∨
      (CenteredVariant.layout pw ph ar).imgHeight = ph - 10) ∧
     (CenteredVariant.layout pw ph ar).imgWidth /
       (CenteredVariant.layout pw ph ar).imgHeight = ar ∧
     (ar ≠ (pw - 10) / (ph - 10) →
       ¬((CenteredVariant.layout pw ph ar).imgWidth = pw - 10 ∧
         (CenteredVariant.layout pw ph ar).imgHeight = ph - 10))) :=
  ⟨guides_fit pw ph ar har hg1 hg2, centered_fit pw ph ar har hc1 hc2⟩

theorem c1_amended_witness :
    ((0 : ℚ) < 2 ∧ (0 : ℚ) < 210 - 30 ∧ (0 : ℚ) < 297 - 55 ∧
     (0 : ℚ) < 210 - 10 ∧ (0 : ℚ) < 297 - 10) ∧
    ((GuidesVariant.layout 210 297 2).imgWidth = 210 - 30 ∨
     (GuidesVariant.layout 210 297 2).imgHeight = 297 - 55) ∧
    ((CenteredVariant.layout 210 297 2).imgWidth = 210 - 10 ∨
     (CenteredVariant.layout 210 297 2).imgHeight = 297 - 10) := by
  have h := c1_amended 210 297 2 (by norm_num) (by norm_num) (by norm_num)
    (by norm_num) (by norm_num)
  exact ⟨⟨by norm_num, by norm_num, by norm_num, by norm_num, by norm_num⟩,
    h.1.1, h.2.1⟩

/-- C3: tile output order is row-major: the tile stored at flat index `i`
has `column = i % columns` and `row = ⌊i / columns⌋`, and the
`col = i % totalCols` / `row = Math.floor(i / totalCols)` computation of
`generatePDF` recovers exactly the coordinates of the tile drawn on page
`i`. -/
theorem c3_row_major_order (W H : ℚ) (cols rows : ℤ) (i : ℕ)
    (hc : 0 < cols) (hi : (i : ℤ) < cols * rows) :
    ∃ t : Tile, (tiles W H cols rows)[i]? = some t ∧
      t.col = i % cols.toNat ∧ t.row = i / cols.toNat ∧
      (t.col : ℤ) = pdfCol cols i ∧ (t.row : ℤ) = pdfRow cols i := by
  have hrows : 0 < rows := by
    by_contra hr
    push_neg at hr
    have : cols * rows ≤ 0 := mul_nonpos_of_nonneg_of_nonpos (le_of_lt hc) hr
    omega
  have hcc : (cols.toNat : ℤ) = cols := Int.toNat_of_nonneg (le_of_lt hc)
  have hrr : (rows.toNat : ℤ) = rows := Int.toNat_of_nonneg (le_of_lt hrows)
  have hi' : i < rows.toNat * cols.toNat := by
    have : (i : ℤ) < (rows.toNat : ℤ) * (cols.toNat : ℤ) := by
      rw [hcc, hrr]
      linarith [mul_comm cols rows]
    exact_mod_cast this
  refine ⟨mkTile W H cols rows (i % cols.toNat) (i / cols.toNat),
    tiles_getElem W H cols rows i hi', rfl, rfl, ?_, ?_⟩
  · show ((i % cols.toNat : ℕ) : ℤ) = pdfCol cols i
    rw [pdfCol, Int.natCast_mod, hcc]
  · show ((i / cols.toNat : ℕ) : ℤ) = pdfRow cols i
    rw [pdfRow, Int.natCast_div, hcc]

theorem c3_row_major_order_witness :
    (0 : ℤ) < 2 ∧ ((3 : ℕ) : ℤ) < 2 * 2 ∧
    (∃ t : Tile, (tiles 1000 500 2 2)[3]? = some t ∧
      t.col = 3 % (2 : ℤ).toNat ∧ t.row = 3 / (2 : ℤ).toNat ∧
      (t.col : ℤ) = pdfCol 2 3 ∧ (t.row : ℤ) = pdfRow 2 3) :=
  ⟨by decide, by decide, c3_row_major_order 1000 500 2 2 3 (by decide) (by decide)⟩

/-- C2: the partition yields exactly `columns * rows` tiles, every tile uses
the same real-valued piece size, each point of `[0,W) × [0,H)` lies in
exactly one tile rectangle (union covers, no gap, no overlap), and the
rectangle edges of horizontally or vertically adjacent cells coincide
exactly (so they differ by far less than one pixel of rounding). -/
theorem c2_partition_cover (W H : ℚ) (cols rows : ℤ)
    (hc : 1 ≤ cols) (hr : 1 ≤ rows) (hW : (cols : ℚ) ≤ W) (hH : (rows : ℚ) ≤ H) :
    ((tiles W H cols rows).length : ℤ) = cols * rows ∧
    (∀ t ∈ tiles W H cols rows,
      t.rect.w = pieceWidth W cols ∧ t.rect.h = pieceHeight H rows) ∧
    (∀ p q : ℚ, 0 ≤ p → p < W → 0 ≤ q → q < H →
      ∃! k : ℕ, ∃ t : Tile, (tiles W H cols rows)[k]? = some t ∧
        inRect p q t.rect) ∧
    (∀ c r : ℕ,
      (mkTile W H cols rows (c + 1) r).rect.x =
        (mkTile W H cols rows c r).rect.x + (mkTile W H cols rows c r).rect.w ∧
      (mkTile W H cols rows c (r + 1)).rect.y =
        (mkTile W H cols rows c r).rect.y + (mkTile W H cols rows c r).rect.h) := by
  have hcc : (cols.toNat : ℤ) = cols := Int.toNat_of_nonneg (by omega)
  have hrr : (rows.toNat : ℤ) = rows := Int.toNat_of_nonneg (by omega)
  set m := cols.toNat with hm_def
  set n := rows.toNat with hn_def
  have hm : 0 < m := by omega
  have hn : 0 < n := by omega
  have hcolsq : ((m : ℕ) : ℚ) = (cols : ℚ) := by exact_mod_cast hcc
  have hrowsq : ((n : ℕ) : ℚ) = (rows : ℚ) := by exact_mod_cast hrr
  have hWpos : 0 < W := lt_of_lt_of_le (by exact_mod_cast lt_of_lt_of_le Int.zero_lt_one hc) hW
  have hHpos : 0 < H := lt_of_lt_of_le (by exact_mod_cast lt_of_lt_of_le Int.zero_lt_one hr) hH
  have hpw : pieceWidth W cols = W / (m : ℚ) := by rw [pieceWidth, ← hcolsq]
  have hph : pieceHeight H rows = H / (n : ℚ) := by rw [pieceHeight, ← hrowsq]
  refine ⟨?_, ?_, ?_, ?_⟩
  · rw [tiles_length]
    push_cast
    rw [hcc, hrr]
    ring
  · intro t ht
    rw [tiles_mem] at ht
    obtain ⟨r, -, c, -, rfl⟩ := ht
    exact ⟨rfl, rfl⟩
  · intro p q hp0 hpW hq0 hqH
    obtain ⟨c, ⟨hcm, hcl, hcu⟩, hcuniq⟩ := unique_cell p W m hm hWpos hp0 hpW
    obtain ⟨r, ⟨hrn, hrl, hru⟩, hruniq⟩ := unique_cell q H n hn hHpos hq0 hqH
    have hklt : r * m + c < n * m := by
      calc r * m + c < r * m + m := by omega
        _ = (r + 1) * m := by ring
        _ ≤ n * m := Nat.mul_le_mul_right m (by omega)
    have hmod : (r * m + c) % m = c := by
      rw [Nat.add_comm, Nat.add_mul_mod_self_right, Nat.mod_eq_of_lt hcm]
    have hdiv : (r * m + c) / m = r := by
      rw [Nat.add_comm, Nat.add_mul_div_right _ _ hm, Nat.div_eq_of_lt hcm]
      omega
    refine ⟨r * m + c, ⟨mkTile W H cols rows c r, ?_, ?_⟩, ?_⟩
    · rw [tiles_getElem W H cols rows _ hklt, hmod, hdiv]
    · refine ⟨?_, ?_, ?_, ?_⟩
      · show (c : ℚ) * pieceWidth W cols ≤ p
        rw [hpw]
        exact hcl
      · show p < (c : ℚ) * pieceWidth W cols + pieceWidth W cols
        rw [hpw]
        calc p < ((c : ℚ) + 1) * (W / (m : ℚ)) := hcu
          _ = (c : ℚ) * (W / (m : ℚ)) + W / (m : ℚ) := by ring
      · show (r : ℚ) * pieceHeight H rows ≤ q
        rw [hph]
        exact hrl
      · show q < (r : ℚ) * pieceHeight H rows + pieceHeight H rows
        rw [hph]
        calc q < ((r : ℚ) + 1) * (H / (n : ℚ)) := hru
          _ = (r : ℚ) * (H / (n : ℚ)) + H / (n : ℚ) := by ring
    · rintro k' ⟨t', hget', hin'⟩
      have hk'len : k' < (tiles W H cols rows).length := by
        by_contra hbad
        push_neg at hbad
        rw [List.getElem?_eq_none hbad] at hget'
        cases hget'
      rw [tiles_length] at hk'len
      rw [tiles_getElem W H cols rows k' hk'len] at hget'
      have ht' : t' = mkTile W H cols rows (k' % m) (k' / m) := by
        cases hget'
        rfl
      subst ht'
      obtain ⟨hx1, hx2, hy1, hy2⟩ := hin'
      simp only [mkTile, hpw, hph] at hx1 hx2 hy1 hy2
      have hcol : k' % m = c := by
        apply hcuniq
        refine ⟨Nat.mod_lt _ hm, hx1, ?_⟩
        calc p < (↑(k' % m)) * (W / (m : ℚ)) + W / (m : ℚ) := hx2
          _ = ((↑(k' % m)) + 1) * (W / (m : ℚ)) := by ring
      have hrow : k' / m = r := by
        apply hruniq
        refine ⟨(Nat.div_lt_iff_lt_mul hm).mpr hk'len, hy1, ?_⟩
        calc q < (↑(k' / m)) * (H / (n : ℚ)) + H / (n : ℚ) := hy2
          _ = ((↑(k' / m)) + 1) * (H / (n : ℚ)) := by ring
      calc k' = m * (k' / m) + k' % m := (Nat.div_add_mod k' m).symm
        _ = m * r + c := by rw [hcol, hrow]
        _ = r * m + c := by ring
  · intro c r
    constructor
    · show ((c : ℕ) + 1 : ℕ) * pieceWidth W cols =
        (c : ℚ) * pieceWidth W cols + pieceWidth W cols
      push_cast
      ring
    · show ((r : ℕ) + 1 : ℕ) * pieceHeight H rows =
        (r : ℚ) * pieceHeight H rows + pieceHeight H rows
      push_cast
      ring

theorem c2_partition_cover_witness :
    ((1 : ℤ) ≤ 2 ∧ (1 : ℤ) ≤ 1 ∧ ((2 : ℤ) : ℚ) ≤ 1000 ∧ ((1 : ℤ) : ℚ) ≤ 500) ∧
    ((tiles 1000 500 2 1).length : ℤ) = 2 * 1 ∧
    tiles 1000 500 2 1 =
      [⟨0, 0, ⟨0, 0, 500, 500⟩, 500, 500⟩, ⟨1, 0, ⟨500, 0, 500, 500⟩, 500, 500⟩] := by
  have h := c2_partition_cover 1000 500 2 1 (by decide) (by decide)
    (by norm_num) (by norm_num)
  refine ⟨⟨by decide, by decide, by norm_num, by norm_num⟩, h.1, ?_⟩
  simp only [tiles, mkTile, pieceWidth, pieceHeight, canvasWidth, canvasHeight]
  rw [show Int.toNat 2 = 2 from rfl, show Int.toNat 1 = 1 from rfl]
  norm_num [List.range_succ]

/-- C7 counterexample: for grid 2×2 the basic variant saves
`poster-2x2.pdf`, which is not of the deterministic form
`poster-<cols>x<rows>-<format>-<orientation>.pdf` claimed for every variant,
even for the jsPDF defaults (a4, portrait) that this variant actually
uses. -/
theorem c7_counterexample :
    BasicVariant.filename ⟨2, 2⟩ = "poster-2x2.pdf" ∧
    specFilename ⟨2, 2⟩ "a4" "portrait" = "poster-2x2-a4-portrait.pdf" ∧
    BasicVariant.filename ⟨2, 2⟩ ≠ specFilename ⟨2, 2⟩ "a4" "portrait" := by
  refine ⟨rfl, rfl, ?_⟩
  decide

/-- C7 (amended): every variant starts a new page before each tile after the
first, so the exported document has exactly one page per tile, holding that
tile's image, in preview (row-major) order; the two part_000 variants name
the file `poster-<cols>x<rows>-<format>-<orientation>.pdf`, while the basic
variant names it `poster-<cols>x<rows>.pdf` with no format or
orientation. -/
theorem c7_amended (previews : List String) (h : previews ≠ [])
    (g : GridConfig) (f : PaperFormat) (o : PageOrient) :
    (drawLoop previews).pages = (previews.map fun p => [p]) ∧
    (drawLoop previews).pages.length = previews.length ∧
    GuidesVariant.filename g f o = specFilename g (formatKey f) (orientKey o) ∧
    CenteredVariant.filename g f o = specFilename g (formatKey f) (orientKey o) ∧
    BasicVariant.filename g =
      "poster-" ++ toString g.horizontal ++ "x" ++ toString g.vertical ++ ".pdf" := by
  refine ⟨drawLoop_pages previews h, ?_, rfl, rfl, rfl⟩
  rw [drawLoop_pages previews h, List.length_map]

theorem c7_amended_witness :
    (["a", "b", "c"] : List String) ≠ [] ∧
    (drawLoop ["a", "b", "c"]).pages = [["a"], ["b"], ["c"]] ∧
    (drawLoop ["a", "b", "c"]).pages.length = 3 ∧
    GuidesVariant.filename ⟨3, 1⟩ .a4 .landscape =
      specFilename ⟨3, 1⟩ (formatKey .a4) (orientKey .landscape) ∧
    CenteredVariant.filename ⟨3, 1⟩ .a4 .landscape =
      specFilename ⟨3, 1⟩ (formatKey .a4) (orientKey .landscape) ∧
    BasicVariant.filename ⟨3, 1⟩ =
      "poster-" ++ toString (3 : ℤ) ++ "x" ++ toString (1 : ℤ) ++ ".pdf" := by
  have h1 : (["a", "b", "c"] : List String) ≠ [] := by simp
  have h := c7_amended ["a", "b", "c"] h1 ⟨3, 1⟩ .a4 .landscape
  exact ⟨h1, h.1.trans rfl, h.2.1, h.2.2.1, h.2.2.2.1, h.2.2.2.2⟩

end Poster
